import Mathlib

set_option linter.unusedVariables false

namespace Csvq

/-- Three-valued logic from the external ternary package: TRUE, FALSE and UNKNOWN. -/
inductive Ternary where
  | TRUE
  | FALSE
  | UNKNOWN
deriving DecidableEq

/-- Rendering of a ternary value, as the String method of ternary.Value in the
external ternary package. -/
def ternaryString : Ternary → String
  | .TRUE => "TRUE"
  | .FALSE => "FALSE"
  | .UNKNOWN => "UNKNOWN"

/-- ParseBool of ternary.Value: TRUE parses to true, FALSE and UNKNOWN to false. -/
def ternaryParseBool : Ternary → Bool
  | .TRUE => true
  | _ => false

/-- The value.Primary interface of lib/value: the seven variants that the source
dispatches on, plus Other standing for any further implementation of the interface
(the implicit default arm of the type switch in ConvertFieldContents). Float and
Datetime carry their printed representations, because numeric and time formatting
happen in external packages (strconv.FormatFloat and time.Format with RFC3339Nano). -/
inductive Primary where
  | String (raw : String)
  | Integer (i : Int)
  | Float (printed : String)
  | Boolean (b : Bool)
  | Ternary (t : Ternary)
  | Datetime (rfc3339 : String)
  | Null
  | Other (tag : String)
deriving DecidableEq

/-- Style classes of the cmd package palette: NoEffect is the zero value used when a
cell renders with no style. -/
inductive Effect where
  | NoEffect
  | StringEffect
  | NumberEffect
  | BooleanEffect
  | TernaryEffect
  | DatetimeEffect
  | NullEffect
deriving DecidableEq

/-- Field alignments of the external go-text package. -/
inductive FieldAlignment where
  | NotAligned
  | Centering
  | RightAligned
  | LeftAligned
deriving DecidableEq

/-- ConvertFieldContents from encode.go: maps one value to its display string, style
class and alignment. The zero values (empty string, NoEffect, NotAligned) survive on
every path that does not overwrite them, exactly as in the Go type switch. -/
def ConvertFieldContents (val : Primary) (forTextTable : Bool) :
    String × Effect × FieldAlignment :=
  match val with
  | .String raw => (raw, .StringEffect, .NotAligned)
  | .Integer i => (toString i, .NumberEffect, .RightAligned)
  | .Float printed => (printed, .NumberEffect, .RightAligned)
  | .Boolean b => (if b then "true" else "false", .BooleanEffect, .Centering)
  | .Ternary t =>
    if forTextTable then
      (ternaryString t, .TernaryEffect, .Centering)
    else if t ≠ Ternary.UNKNOWN then
      (if ternaryParseBool t then "true" else "false", .BooleanEffect, .Centering)
    else
      ("", .NoEffect, .NotAligned)
  | .Datetime s => (s, .DatetimeEffect, .NotAligned)
  | .Null =>
    if forTextTable then ("NULL", .NullEffect, .Centering)
    else ("", .NoEffect, .NotAligned)
  | .Other _ => ("", .NoEffect, .NotAligned)

/-- HeaderField, one column's metadata, with the fields exercised by header_test.go.
The zero values are the Go zero values, so test headers transcribe literally. -/
structure HeaderField where
  View : String := ""
  Column : String := ""
  Aliases : List String := []
  Number : Int := 0
  IsFromTable : Bool := false
  IsJoinColumn : Bool := false
deriving DecidableEq

/-- A Header is an ordered sequence of HeaderField. -/
abbrev Header := List HeaderField

/-- A parser.FieldReference with its identifier literals flattened to strings; an
empty View literal means the reference carries no table qualifier. -/
structure FieldReference where
  View : String := ""
  Column : String := ""
deriving DecidableEq

/-- The shapes of parser.QueryExpression that Header.ContainsObject dispatches on.
An aggregate-shaped expression is represented by its printed source text (the literal
column text it is matched by, such as count(*)); other expression kinds never reach
the resolution engine in the modelled claims. -/
inductive QueryExpression where
  | FieldReference (View Column : String)
  | ColumnNumber (View : String) (Number : Int)
  | IntegerLiteral (n : Int)
  | AggregateFunction (printed : String)
deriving DecidableEq

/-- The resolution-engine error taxonomy: FieldAmbiguousError, FieldNotExistError,
FieldLengthNotMatchError and DuplicateFieldNameError, each carrying the text that its
message names (field X is ambiguous, field X does not exist, field length does not
match, field name X is a duplicate). -/
inductive FieldError where
  | FieldAmbiguous (name : String)
  | FieldNotExist (name : String)
  | FieldLengthNotMatch
  | DuplicateFieldName (name : String)
deriving DecidableEq

/-- Modelled from the spec: a header field matches an unqualified name when its
Column equals the name or the name is among its Aliases (header.go is not under src;
section 4.1 of the spec and TestHeader_Contains fix this predicate). -/
def fieldMatch (f : HeaderField) (name : String) : Bool :=
  f.Column == name || f.Aliases.contains name

/-- A join-produced duplicate column: IsFromTable and IsJoinColumn both set. -/
def isJoinField (f : HeaderField) : Bool :=
  f.IsFromTable && f.IsJoinColumn

/-- Modelled from the spec: the unqualified scan of Header.Contains. A second match
is ambiguous, except that a join-produced duplicate column wins immediately:
TestHeader_Contains resolves an unqualified name matched by a plain field and then by
a join field to the join field, and the spec collapses join-duplicate siblings to the
first such occurrence instead of erroring. -/
def containsLoop (name : String) :
    List HeaderField → Nat → Option Nat → Except FieldError Nat
  | [], _, none => .error (.FieldNotExist name)
  | [], _, some idx => .ok idx
  | f :: rest, i, acc =>
    if fieldMatch f name then
      if isJoinField f then
        .ok i
      else
        match acc with
        | some _ => .error (.FieldAmbiguous name)
        | none => containsLoop name rest (i + 1) (some i)
    else
      containsLoop name rest (i + 1) acc

/-- Modelled from the spec: the qualified scan of Header.Contains matches only fields
whose View equals the qualifier and whose Column or an alias equals the name; a
second match is ambiguous, no match does not exist (display is the qualified text
used in the error message). -/
def containsQualifiedLoop (display name view : String) :
    List HeaderField → Nat → Option Nat → Except FieldError Nat
  | [], _, none => .error (.FieldNotExist display)
  | [], _, some idx => .ok idx
  | f :: rest, i, acc =>
    if f.View == view && fieldMatch f name then
      match acc with
      | some _ => .error (.FieldAmbiguous display)
      | none => containsQualifiedLoop display name view rest (i + 1) (some i)
    else
      containsQualifiedLoop display name view rest (i + 1) acc

/-- The qualified-or-bare text of a reference, as used in resolution error messages. -/
def FieldReference.text (r : FieldReference) : String :=
  if r.View = "" then r.Column else r.View ++ "." ++ r.Column

/-- Modelled from the spec: Header.Contains resolves a field reference to the unique
matching column index or fails with a classified error (header.go is not under src;
behaviour fixed by section 4.1 of the spec and TestHeader_Contains). -/
def Header.Contains (h : Header) (ref : FieldReference) : Except FieldError Nat :=
  if ref.View = "" then
    containsLoop ref.Column h 0 none
  else
    containsQualifiedLoop (FieldReference.text ref) ref.Column ref.View h 0 none

/-- Modelled from the spec: the scan of Header.ContainsNumber, succeeding on the
first field with the given originating view and 1-based number; number 0 is never
addressable. -/
def containsNumberLoop (display view : String) (n : Int) :
    List HeaderField → Nat → Except FieldError Nat
  | [], _ => .error (.FieldNotExist display)
  | f :: rest, i =>
    if f.View = view ∧ f.Number = n ∧ 0 < f.Number then
      .ok i
    else
      containsNumberLoop display view n rest (i + 1)

/-- Modelled from the spec: Header.ContainsNumber resolves a positional reference
qualified by an originating view (TestHeader_ContainsNumber). -/
def Header.ContainsNumber (h : Header) (view : String) (n : Int) :
    Except FieldError Nat :=
  containsNumberLoop (view ++ "." ++ toString n) view n h 0

/-- The printed source text of an expression, as the String method of the parser
expressions: an integer literal prints its decimal text. -/
def exprText : QueryExpression → String
  | .FieldReference v c => if v = "" then c else v ++ "." ++ c
  | .ColumnNumber v n => v ++ "." ++ toString n
  | .IntegerLiteral n => toString n
  | .AggregateFunction printed => printed

/-- Modelled from the spec: the literal-column-text scan used by ContainsObject
outside the FieldReference and ColumnNumber arms; p selects which fields take part in
the scan. A second selected match is ambiguous, no selected match does not exist. -/
def textMatchLoop (s : String) (p : HeaderField → Bool) :
    List HeaderField → Nat → Option Nat → Except FieldError Nat
  | [], _, none => .error (.FieldNotExist s)
  | [], _, some idx => .ok idx
  | f :: rest, i, acc =>
    if p f && f.Column == s then
      match acc with
      | some _ => .error (.FieldAmbiguous s)
      | none => textMatchLoop s p rest (i + 1) (some i)
    else
      textMatchLoop s p rest (i + 1) acc

/-- Modelled from the spec: Header.ContainsObject dispatches on the expression kind.
Field references delegate to Contains and positional references to ContainsNumber.
An aggregate-shaped expression is resolved by literal column text among the fields
that do not originate from a table: TestHeader_ContainsObject resolves count(*) to
the non-table field even though a table field carries the same column text. A bare
integer literal is resolved, per the spec, by scanning all fields whose Column equals
the literal's decimal text, never consulting Number. -/
def Header.ContainsObject (h : Header) (obj : QueryExpression) :
    Except FieldError Nat :=
  match obj with
  | .FieldReference v c => Header.Contains h { View := v, Column := c }
  | .ColumnNumber v n => Header.ContainsNumber h v n
  | .IntegerLiteral n => textMatchLoop (toString n) (fun _ => true) h 0 none
  | .AggregateFunction printed => textMatchLoop printed (fun f => !f.IsFromTable) h 0 none

/-- Modelled from the spec: the duplicate scan of Update over the replacement
identifiers, reporting the name at the first repeated position. -/
def firstDuplicateAux : List String → List String → Option String
  | _, [] => none
  | seen, x :: rest =>
    if seen.contains x then some x else firstDuplicateAux (seen ++ [x]) rest

/-- First duplicated replacement name, scanning left to right. -/
def firstDuplicate (l : List String) : Option String :=
  firstDuplicateAux [] l

/-- Modelled from the spec: Header.Update rebinds every field's View to the new
reference and clears aliases and numbering; with replacement identifiers it first
requires matching length, then no duplicates, and rewrites every Column. The
returned header is the updated value (see UpdateCall for the Go call semantics). -/
def Header.Update (h : Header) (reference : String) (fields : Option (List String)) :
    Except FieldError Header :=
  match fields with
  | none =>
    .ok (h.map fun f => { f with View := reference, Aliases := [], Number := 0 })
  | some fs =>
    if fs.length ≠ h.length then
      .error .FieldLengthNotMatch
    else
      match firstDuplicate fs with
      | some x => .error (.DuplicateFieldName x)
      | none =>
        .ok ((h.zip fs).map fun p =>
          { p.1 with View := reference, Column := p.2, Aliases := [], Number := 0 })

/-- The Go call semantics of Update: the method mutates its receiver in place
(TestHeader_Update calls Update for its error value only and then compares the
receiver against the updated header) and returns only an error. The first component
is the header value the caller holds after the call: the rewritten fields on
success, the untouched original on error. -/
def Header.UpdateCall (h : Header) (reference : String)
    (fields : Option (List String)) : Header × Option FieldError :=
  match Header.Update h reference fields with
  | .ok h2 => (h2, none)
  | .error e => (h, some e)

/-- Modelled from the spec: TableColumnNames keeps, in header order, the Column of
every field with IsFromTable set (TestHeader_TableColumnNames drops the field with
IsFromTable false). -/
def Header.TableColumnNames (h : Header) : List String :=
  (h.filter fun f => f.IsFromTable).map fun f => f.Column

/-- A cell of a RecordSet: the execution-time wrapper around its underlying value. -/
structure Cell where
  value : Primary
deriving DecidableEq

/-- Cell.Value dereferences the wrapper to the underlying Primary. -/
def Cell.Value (c : Cell) : Primary := c.value

/-- A View pairs a Header with a RecordSet (ordered rows of cells). -/
structure View where
  Header : Header
  RecordSet : List (List Cell)
deriving DecidableEq

/-- View.RecordLen from the View accessors used by encode.go. -/
def View.RecordLen (view : View) : Nat := view.RecordSet.length

/-- View.FieldLen from the View accessors used by encode.go. -/
def View.FieldLen (view : View) : Nat := view.Header.length

/-- bareValues from encode.go: flattens a View into the table-column names and the
rows of dereferenced values. -/
def bareValues (view : View) : List String × List (List Primary) :=
  (Header.TableColumnNames view.Header,
    view.RecordSet.map fun record => record.map Cell.Value)

/-- Output format tags of the cmd package. -/
inductive Format where
  | CSV
  | TSV
  | FIXED
  | JSON
  | LTSV
  | GFM
  | ORG
  | TEXT
deriving DecidableEq

/-- Line-break styles of the external go-text package. -/
inductive LineBreak where
  | LF
  | CRLF
  | CR
deriving DecidableEq

/-- Target text encodings of the external go-text package. -/
inductive Encoding where
  | UTF8
  | SJIS
deriving DecidableEq

/-- JSON escape strategies of the external go-text json package. -/
inductive JsonEscapeType where
  | Backslash
  | Hex
  | HexAll
deriving DecidableEq

/-- FileInfo: the format descriptor handed to EncodeView, restricted to the fields
encode.go reads. -/
structure FileInfo where
  Format : Format
  Delimiter : Char
  DelimiterPositions : Option (List Nat)
  LineBreak : LineBreak
  NoHeader : Bool
  Encoding : Encoding
  EncloseAll : Bool
  JsonEscape : JsonEscapeType
  PrettyPrint : Bool
deriving DecidableEq

/-- The delegation performed by EncodeView: which encoder runs and with which
arguments taken from the FileInfo (the View itself is passed to every encoder
unchanged, so it is not repeated here). -/
inductive EncoderCall where
  | fixedCall (positions : Option (List Nat)) (lineBreak : LineBreak)
      (noHeader : Bool) (encoding : Encoding)
  | jsonCall (lineBreak : LineBreak) (escape : JsonEscapeType) (pretty : Bool)
  | ltsvCall (lineBreak : LineBreak) (encoding : Encoding)
  | textCall (format : Format) (lineBreak : LineBreak) (noHeader : Bool)
      (encoding : Encoding)
  | csvCall (delimiter : Char) (lineBreak : LineBreak) (noHeader : Bool)
      (encoding : Encoding) (encloseAll : Bool)
deriving DecidableEq

/-- EncodeView from encode.go: dispatch on fileInfo.Format. The TSV arm assigns the
tab character to fileInfo.Delimiter and falls through to the CSV arm. fileInfo is a
pointer in the source, so the first component is the FileInfo value the caller holds
after the call. -/
def EncodeView (view : View) (fileInfo : FileInfo) : FileInfo × EncoderCall :=
  match fileInfo.Format with
  | .FIXED => (fileInfo, .fixedCall fileInfo.DelimiterPositions fileInfo.LineBreak
      fileInfo.NoHeader fileInfo.Encoding)
  | .JSON => (fileInfo, .jsonCall fileInfo.LineBreak fileInfo.JsonEscape
      fileInfo.PrettyPrint)
  | .LTSV => (fileInfo, .ltsvCall fileInfo.LineBreak fileInfo.Encoding)
  | .GFM => (fileInfo, .textCall .GFM fileInfo.LineBreak fileInfo.NoHeader
      fileInfo.Encoding)
  | .ORG => (fileInfo, .textCall .ORG fileInfo.LineBreak fileInfo.NoHeader
      fileInfo.Encoding)
  | .TEXT => (fileInfo, .textCall .TEXT fileInfo.LineBreak fileInfo.NoHeader
      fileInfo.Encoding)
  | .TSV =>
    ({ fileInfo with Delimiter := '\t' },
      .csvCall '\t' fileInfo.LineBreak fileInfo.NoHeader fileInfo.Encoding
        fileInfo.EncloseAll)
  | .CSV => (fileInfo, .csvCall fileInfo.Delimiter fileInfo.LineBreak
      fileInfo.NoHeader fileInfo.Encoding fileInfo.EncloseAll)

/-- A field handed to the external go-text table encoder: contents and alignment. -/
structure TableField where
  contents : String
  alignment : FieldAlignment
deriving DecidableEq

/-- Table flavors of the external go-text table encoder. -/
inductive TableFormat where
  | PlainTable
  | GFMTable
  | OrgTable
deriving DecidableEq

/-- Everything encodeText hands to the external go-text table encoder before the
final render-and-write step: the table flavor, the centered header fields (when not
suppressed), the converted record fields, and for GFM the per-column alignment
markers taken from the first data row. -/
structure TextEncodeCall where
  tableFormat : TableFormat
  header : Option (List TableField)
  records : List (List TableField)
  fieldAlignments : Option (List FieldAlignment)
  lineBreak : LineBreak
  encoding : Encoding
deriving DecidableEq

/-- EmptyResultSetError: the recoverable empty-result signal raised only by the
plain-text table path. -/
inductive EmptyResultSetError where
  | mk
deriving DecidableEq

/-- The per-line palette rendering loop of encodeText in encode.go: the cell text is
split on LF, CRLF and CR, each non-empty physical line is wrapped by the palette for
the cell's style class so color codes never span a line break, and every break is
re-emitted as a single LF. -/
def renderTextLines (palette : Effect → String → String) (effect : Effect) :
    List Char → String → String
  | [], lineBuf => if 0 < lineBuf.length then palette effect lineBuf else ""
  | '\r' :: '\n' :: rest, lineBuf =>
    (if 0 < lineBuf.length then palette effect lineBuf else "") ++ "\n" ++
      renderTextLines palette effect rest ""
  | '\r' :: rest, lineBuf =>
    (if 0 < lineBuf.length then palette effect lineBuf else "") ++ "\n" ++
      renderTextLines palette effect rest ""
  | '\n' :: rest, lineBuf =>
    (if 0 < lineBuf.length then palette effect lineBuf else "") ++ "\n" ++
      renderTextLines palette effect rest ""
  | c :: rest, lineBuf => renderTextLines palette effect rest (lineBuf.push c)

/-- One record of table fields as built by the record loop of encodeText: each value
is converted and, only in the TEXT format, its text is palette-rendered line by
line. -/
def textRecordFields (format : Format) (palette : Effect → String → String)
    (isPlainTable : Bool) (record : List Primary) : List TableField :=
  record.map fun v =>
    let conv := ConvertFieldContents v isPlainTable
    let str :=
      if format = Format.TEXT then renderTextLines palette conv.2.1 conv.1.toList ""
      else conv.1
    { contents := str, alignment := conv.2.2 }

/-- The alignment list collected from the first record by the record loop of
encodeText (the loop appends to it only when the record index is 0). -/
def firstRowAligns (isPlainTable : Bool) : List (List Primary) → List FieldAlignment
  | [] => []
  | record :: _ => record.map fun v => (ConvertFieldContents v isPlainTable).2.2

/-- encodeText from encode.go, with the external go-text table encoder and the
buffered writer modelled by the data handed to them. The result pairs the list of
LogWarn calls (message, quiet flag) with either the EmptyResultSetError - raised
before anything is given to the writer, so no output bytes are produced - or the
fully prepared encoder input. Only the default (plain text) arm checks emptiness of
the flattened column names and of the record rows. -/
def encodeText (format : Format) (view : View) (lineBreak : LineBreak)
    (withoutHeader : Bool) (encoding : Encoding)
    (palette : Effect → String → String) (quiet : Bool) :
    List (String × Bool) × Except EmptyResultSetError TextEncodeCall :=
  let flat := bareValues view
  let header := flat.1
  let records := flat.2
  let tf : TableFormat :=
    match format with
    | .GFM => .GFMTable
    | .ORG => .OrgTable
    | _ => .PlainTable
  let isPlainTable : Bool :=
    match format with
    | .GFM => false
    | .ORG => false
    | _ => true
  let emptyWarn : Option (String × Bool) :=
    match format with
    | .GFM => none
    | .ORG => none
    | _ =>
      if header.length < 1 then some ("Empty Fields", quiet)
      else if records.length < 1 then some ("Empty RecordSet", quiet)
      else none
  match emptyWarn with
  | some w => ([w], .error .mk)
  | none =>
    let hfields : Option (List TableField) :=
      if withoutHeader then none
      else some (header.map fun v =>
        { contents := v, alignment := FieldAlignment.Centering })
    ([], .ok {
      tableFormat := tf
      header := hfields
      records := records.map (textRecordFields format palette isPlainTable)
      fieldAlignments :=
        if format = Format.GFM then some (firstRowAligns isPlainTable records)
        else none
      lineBreak := lineBreak
      encoding := encoding })

/-- Number of header fields matching an unqualified name by column or alias. -/
def countMatch (h : Header) (name : String) : Nat :=
  (h.filter fun f => fieldMatch f name).length

/-- Number of header fields selected by the text-match scan of ContainsObject. -/
def countTextMatch (p : HeaderField → Bool) (h : Header) (s : String) : Nat :=
  (h.filter fun f => p f && f.Column == s).length

/-- A header with two non-join fields of the same column name. -/
def ambHeader : Header := [
  { View := "t1", Column := "c1", IsFromTable := true },
  { View := "t2", Column := "c1", IsFromTable := true } ]

/-- A header with two join-produced duplicate columns of the same name. -/
def joinHeader : Header := [
  { Column := "c4", IsFromTable := true, IsJoinColumn := true },
  { Column := "c4", IsFromTable := true, IsJoinColumn := true } ]

/-- The header of TestHeader_TableColumnNames: three fields, the middle one not
originating from a table. -/
def mixedHeader : Header := [
  { View := "t1", Column := "c1", Aliases := ["a1"], IsFromTable := true },
  { View := "t1", Column := "c2", Aliases := ["a3"], IsFromTable := false },
  { Column := "c3", IsFromTable := true } ]

/-- A view over mixedHeader with one fully populated row of three cells. -/
def mixedView : View :=
  { Header := mixedHeader,
    RecordSet := [[⟨Primary.Integer 1⟩, ⟨Primary.String "x"⟩, ⟨Primary.Null⟩]] }

/-- A view whose fields all originate from tables. -/
def allTableView : View :=
  { Header := [{ View := "t1", Column := "c1", Number := 1, IsFromTable := true },
               { View := "t1", Column := "c2", Number := 2, IsFromTable := true }],
    RecordSet := [[⟨Primary.Integer 1⟩, ⟨Primary.String "x"⟩]] }

/-- The fields of the TestHeader_ContainsObject header that exercise the
integer-literal path: duplicated column text 1, and numbered fields whose Number
equals the probed literals. -/
def litHeader : Header := [
  { View := "t1", Column := "c1", Aliases := ["a1"], Number := 1, IsFromTable := true },
  { View := "t1", Column := "c2", Aliases := ["a2"], Number := 2, IsFromTable := true },
  { Column := "1", IsFromTable := false },
  { Column := "1", IsFromTable := false } ]

/-- The header shared by the TestHeader_Update cases. -/
def updHeader : Header := [
  { View := "table1", Column := "column1", Aliases := ["alias1"] },
  { View := "table1", Column := "column2", Aliases := ["alias2"] },
  { View := "table2", Column := "column3" } ]

/-- A palette that applies no styling (color disabled). -/
def plainPalette : Effect → String → String := fun _ s => s

/-- A view with a non-empty header and a non-empty record set in which no field
originates from a table. -/
def nonTableView : View :=
  { Header := [{ Column := "c3", IsFromTable := false }],
    RecordSet := [[⟨Primary.String "x"⟩]] }

/-- A view with a table-originating field and no records. -/
def emptyRecView : View :=
  { Header := [{ View := "t1", Column := "c1", Number := 1, IsFromTable := true }],
    RecordSet := [] }

/-- A two-row view whose second row would yield different alignment hints than the
first. -/
def gfmView : View :=
  { Header := [{ View := "t1", Column := "c1", Number := 1, IsFromTable := true },
               { View := "t1", Column := "c2", Number := 2, IsFromTable := true }],
    RecordSet := [[⟨Primary.Integer 1⟩, ⟨Primary.String "x"⟩],
                  [⟨Primary.String "y"⟩, ⟨Primary.Integer 2⟩]] }

/-- A TSV format descriptor whose delimiter starts out as a comma. -/
def fileInfoTSV : FileInfo :=
  { Format := .TSV, Delimiter := ',', DelimiterPositions := none, LineBreak := .LF,
    NoHeader := false, Encoding := .UTF8, EncloseAll := false,
    JsonEscape := .Backslash, PrettyPrint := false }

/-- The empty view. -/
def emptyView : View := { Header := [], RecordSet := [] }

/-- When every matching field is a join-produced duplicate column, the unqualified
scan succeeds immediately on the first matching field. -/
theorem containsLoop_all_join (name : String) (l : List HeaderField) :
    ∀ i : Nat,
      (∀ f ∈ l, fieldMatch f name = true → isJoinField f = true) →
      (∃ f ∈ l, fieldMatch f name = true) →
      containsLoop name l i none =
        .ok (i + l.findIdx fun f => fieldMatch f name && isJoinField f) := by
  induction l with
  | nil =>
    intro i _ hex
    simp at hex
  | cons f rest ih =>
    intro i hall hex
    by_cases hm : fieldMatch f name
    · have hj : isJoinField f = true := hall f (by simp) hm
      simp [containsLoop, hm, hj, List.findIdx_cons]
    · have hex2 : ∃ g ∈ rest, fieldMatch g name = true := by
        rcases hex with ⟨g, hg, hgm⟩
        rcases List.mem_cons.mp hg with h1 | h2
        · exact absurd (h1 ▸ hgm) (by simpa using hm)
        · exact ⟨g, h2, hgm⟩
      have hall2 : ∀ g ∈ rest, fieldMatch g name = true → isJoinField g = true :=
        fun g hg hgm => hall g (List.mem_cons_of_mem _ hg) hgm
      have hrec := ih (i + 1) hall2 hex2
      have hm2 : fieldMatch f name = false := by simpa using hm
      simp [containsLoop, hm2, List.findIdx_cons, hrec]
      omega

/-- When no matching field is a join-produced duplicate column, a scan that still
owes two matches (or one match on top of an already-recorded index) ends in the
ambiguous-field error. -/
theorem containsLoop_no_join_amb (name : String) (l : List HeaderField) :
    ∀ (i : Nat) (acc : Option Nat),
      (∀ f ∈ l, fieldMatch f name = true → isJoinField f = false) →
      2 ≤ (l.filter fun f => fieldMatch f name).length +
        (if acc.isSome then 1 else 0) →
      containsLoop name l i acc = .error (.FieldAmbiguous name) := by
  induction l with
  | nil =>
    intro i acc _ hcnt
    cases acc <;> simp at hcnt
  | cons f rest ih =>
    intro i acc hall hcnt
    have hall2 : ∀ g ∈ rest, fieldMatch g name = true → isJoinField g = false :=
      fun g hg hgm => hall g (List.mem_cons_of_mem _ hg) hgm
    by_cases hm : fieldMatch f name
    · have hj : isJoinField f = false := hall f (by simp) hm
      cases acc with
      | some j => simp [containsLoop, hm, hj]
      | none =>
        have hcnt2 : 2 ≤ (rest.filter fun f => fieldMatch f name).length +
            (if (some i).isSome then 1 else 0) := by
          simp [List.filter_cons, hm] at hcnt
          simpa using hcnt
        simp [containsLoop, hm, hj]
        exact ih (i + 1) (some i) hall2 hcnt2
    · have hm2 : fieldMatch f name = false := by simpa using hm
      have hcnt2 : 2 ≤ (rest.filter fun f => fieldMatch f name).length +
          (if acc.isSome then 1 else 0) := by
        simpa [List.filter_cons, hm2] using hcnt
      simp [containsLoop, hm2]
      exact ih (i + 1) acc hall2 hcnt2

/-- A text-match scan with no selected match left returns the recorded index, or the
not-exist error when none was recorded. -/
theorem textMatchLoop_zero (s : String) (p : HeaderField → Bool)
    (l : List HeaderField) :
    ∀ (i : Nat) (acc : Option Nat),
      (l.filter fun f => p f && f.Column == s).length = 0 →
      textMatchLoop s p l i acc =
        (match acc with
          | none => .error (.FieldNotExist s)
          | some j => .ok j) := by
  induction l with
  | nil =>
    intro i acc _
    cases acc <;> rfl
  | cons f rest ih =>
    intro i acc hcnt
    by_cases hm : (p f && f.Column == s) = true
    · simp [List.filter_cons, hm] at hcnt
    · have hm2 : (p f && f.Column == s) = false := by simpa using hm
      rw [List.filter_cons] at hcnt
      simp only [hm2, Bool.false_eq_true, if_false] at hcnt
      simp [textMatchLoop, hm2]
      exact ih (i + 1) acc hcnt

/-- A text-match scan that still owes two selected matches (or one on top of a
recorded index) ends in the ambiguous-field error. -/
theorem textMatchLoop_amb (s : String) (p : HeaderField → Bool)
    (l : List HeaderField) :
    ∀ (i : Nat) (acc : Option Nat),
      2 ≤ (l.filter fun f => p f && f.Column == s).length +
        (if acc.isSome then 1 else 0) →
      textMatchLoop s p l i acc = .error (.FieldAmbiguous s) := by
  induction l with
  | nil =>
    intro i acc hcnt
    cases acc <;> simp at hcnt
  | cons f rest ih =>
    intro i acc hcnt
    by_cases hm : (p f && f.Column == s) = true
    · cases acc with
      | some j => simp [textMatchLoop, hm]
      | none =>
        have hcnt2 : 2 ≤ (rest.filter fun f => p f && f.Column == s).length +
            (if (some i : Option Nat).isSome then 1 else 0) := by
          rw [List.filter_cons] at hcnt
          simp only [hm, if_true, List.length_cons] at hcnt
          simpa using hcnt
        simp [textMatchLoop, hm]
        exact ih (i + 1) (some i) hcnt2
    · have hm2 : (p f && f.Column == s) = false := by simpa using hm
      have hcnt2 : 2 ≤ (rest.filter fun f => p f && f.Column == s).length +
          (if acc.isSome then 1 else 0) := by
        rw [List.filter_cons] at hcnt
        simpa [hm2] using hcnt
      simp [textMatchLoop, hm2]
      exact ih (i + 1) acc hcnt2

/-- A text-match scan with exactly one selected match returns the index of that
match. -/
theorem textMatchLoop_one (s : String) (p : HeaderField → Bool)
    (l : List HeaderField) :
    ∀ i : Nat,
      (l.filter fun f => p f && f.Column == s).length = 1 →
      textMatchLoop s p l i none =
        .ok (i + l.findIdx fun f => p f && f.Column == s) := by
  induction l with
  | nil =>
    intro i hcnt
    simp at hcnt
  | cons f rest ih =>
    intro i hcnt
    by_cases hm : (p f && f.Column == s) = true
    · rw [List.filter_cons] at hcnt
      simp only [hm, if_true, List.length_cons, Nat.add_left_eq_self,
        Nat.succ_inj] at hcnt
      have hrest : (rest.filter fun f => p f && f.Column == s).length = 0 := by
        simpa using hcnt
      simp [textMatchLoop, hm, List.findIdx_cons]
      rw [textMatchLoop_zero s p rest (i + 1) (some i) hrest]
    · have hm2 : (p f && f.Column == s) = false := by simpa using hm
      have hcnt2 : (rest.filter fun f => p f && f.Column == s).length = 1 := by
        rw [List.filter_cons] at hcnt
        simpa [hm2] using hcnt
      have hrec := ih (i + 1) hcnt2
      simp [textMatchLoop, hm2, List.findIdx_cons, hrec]
      omega

/-- The text-match scan of the integer-literal arm never reads the Number field:
rewriting every Number leaves it unchanged. -/
theorem textMatchLoop_map_number (s : String) (φ : HeaderField → Int)
    (l : List HeaderField) :
    ∀ (i : Nat) (acc : Option Nat),
      textMatchLoop s (fun _ => true) (l.map fun f => { f with Number := φ f }) i acc
        = textMatchLoop s (fun _ => true) l i acc := by
  induction l with
  | nil =>
    intro i acc
    rfl
  | cons f rest ih =>
    intro i acc
    by_cases hm : (f.Column == s) = true
    · cases acc <;> simp [textMatchLoop, hm, ih]
    · have hm2 : (f.Column == s) = false := by simpa using hm
      simp [textMatchLoop, hm2, ih]

/-- A duplicate scan that finds nothing certifies that the names are nodup and
disjoint from the already-seen prefix. -/
theorem firstDuplicateAux_none (l : List String) :
    ∀ seen : List String,
      firstDuplicateAux seen l = none →
      l.Nodup ∧ ∀ x ∈ l, seen.contains x = false := by
  induction l with
  | nil =>
    intro seen _
    exact ⟨List.nodup_nil, by simp⟩
  | cons y rest ih =>
    intro seen hnone
    by_cases hy : seen.contains y = true
    · have hy3 : y ∈ seen := by simpa using hy
      simp [firstDuplicateAux, hy3] at hnone
    · have hy2 : seen.contains y = false := by simpa using hy
      rw [firstDuplicateAux, hy2] at hnone
      simp only [Bool.false_eq_true, if_false] at hnone
      rcases ih (seen ++ [y]) hnone with ⟨hnd, hdisj⟩
      have hynotin : y ∉ rest := by
        intro hmem
        have := hdisj y hmem
        simp at this
      refine ⟨List.nodup_cons.mpr ⟨hynotin, hnd⟩, ?_⟩
      intro x hx
      rcases List.mem_cons.mp hx with h1 | h2
      · exact h1 ▸ hy2
      · have := hdisj x h2
        simp at this
        simpa using this.1

/-- A duplicate scan over nodup names disjoint from the seen prefix finds nothing. -/
theorem firstDuplicateAux_none_of_nodup (l : List String) :
    ∀ seen : List String,
      l.Nodup → (∀ x ∈ l, seen.contains x = false) →
      firstDuplicateAux seen l = none := by
  induction l with
  | nil =>
    intro seen _ _
    rfl
  | cons y rest ih =>
    intro seen hnd hdisj
    have hy : seen.contains y = false := hdisj y (by simp)
    rw [firstDuplicateAux, hy]
    simp only [Bool.false_eq_true, if_false]
    rcases List.nodup_cons.mp hnd with ⟨hynotin, hnd2⟩
    refine ih (seen ++ [y]) hnd2 ?_
    intro x hx
    have h1 : seen.contains x = false := hdisj x (List.mem_cons_of_mem _ hx)
    have h2 : x ≠ y := fun he => hynotin (he ▸ hx)
    have h3 : x ∉ seen := by simpa using h1
    simp [h2, h3]

/-- A found duplicate lies in the seen prefix or occurs at least twice in the
scanned names. -/
theorem firstDuplicateAux_some (l : List String) :
    ∀ (seen : List String) (x : String),
      firstDuplicateAux seen l = some x →
      (x ∈ seen ∧ x ∈ l) ∨ 2 ≤ l.count x := by
  induction l with
  | nil =>
    intro seen x hsome
    simp [firstDuplicateAux] at hsome
  | cons y rest ih =>
    intro seen x hsome
    by_cases hy : seen.contains y = true
    · rw [firstDuplicateAux, hy] at hsome
      simp only [if_true, Option.some.injEq] at hsome
      subst hsome
      exact Or.inl ⟨by simpa using hy, by simp⟩
    · have hy2 : seen.contains y = false := by simpa using hy
      rw [firstDuplicateAux, hy2] at hsome
      simp only [Bool.false_eq_true, if_false] at hsome
      rcases ih (seen ++ [y]) x hsome with ⟨hin, hmem⟩ | hcnt
      · rcases List.mem_append.mp hin with h1 | h2
        · exact Or.inl ⟨h1, List.mem_cons_of_mem _ hmem⟩
        · have hxy : x = y := by simpa using h2
          subst hxy
          have hone : 1 ≤ rest.count x := List.one_le_count_iff.mpr hmem
          refine Or.inr ?_
          rw [List.count_cons]
          have hxx : (x == x) = true := by simp
          rw [hxx]
          simp only [if_true]
          omega
      · refine Or.inr ?_
        rw [List.count_cons]
        split <;> omega

/-- firstDuplicate finds nothing exactly on nodup name lists. -/
theorem firstDuplicate_eq_none_iff (l : List String) :
    firstDuplicate l = none ↔ l.Nodup := by
  constructor
  · intro hnone
    exact (firstDuplicateAux_none l [] hnone).1
  · intro hnd
    exact firstDuplicateAux_none_of_nodup l [] hnd (by simp)

/-- A name reported by firstDuplicate occurs at least twice. -/
theorem firstDuplicate_count (l : List String) (x : String)
    (hsome : firstDuplicate l = some x) : 2 ≤ l.count x := by
  rcases firstDuplicateAux_some l [] x hsome with ⟨hin, _⟩ | hcnt
  · simp at hin
  · exact hcnt

/-- Claim C6: a Ternary UNKNOWN value and a Null value convert, outside a text table,
to the empty string with no style class and no alignment, and inside a text table to
the non-empty literals UNKNOWN and NULL with the Ternary and Null style classes and
center alignment. -/
theorem C6_ternary_null_asymmetry :
    ConvertFieldContents (Primary.Ternary Ternary.UNKNOWN) false
        = ("", Effect.NoEffect, FieldAlignment.NotAligned) ∧
    ConvertFieldContents Primary.Null false
        = ("", Effect.NoEffect, FieldAlignment.NotAligned) ∧
    ConvertFieldContents (Primary.Ternary Ternary.UNKNOWN) true
        = ("UNKNOWN", Effect.TernaryEffect, FieldAlignment.Centering) ∧
    "UNKNOWN" ≠ "" ∧
    ConvertFieldContents Primary.Null true
        = ("NULL", Effect.NullEffect, FieldAlignment.Centering) ∧
    "NULL" ≠ "" := by
  refine ⟨rfl, rfl, rfl, ?_, rfl, ?_⟩ <;> decide

/-- Claim C10: ConvertFieldContents is total with no error branch; a value outside
the seven documented variants falls through the type switch unchanged and yields the
empty string with no style class and no alignment, indistinguishable from a Null
converted outside a text table. -/
theorem C10_convert_default_arm (tag : String) (forTextTable : Bool) :
    ConvertFieldContents (Primary.Other tag) forTextTable
        = ("", Effect.NoEffect, FieldAlignment.NotAligned) ∧
    ConvertFieldContents (Primary.Other tag) false
        = ConvertFieldContents Primary.Null false := by
  exact ⟨rfl, rfl⟩

/-- Claim C1: for an unqualified reference matched by two or more fields, when no
matching field is a join-produced duplicate column (IsFromTable and IsJoinColumn),
Contains and ContainsObject fail with the field-is-ambiguous error and never silently
return the first match; when the duplicates are join-produced duplicate columns,
resolution succeeds with the index of the first such join field. -/
theorem C1_ambiguity_and_join_duplicates (h : Header) (name : String)
    (hdup : 2 ≤ countMatch h name) :
    ((∀ f ∈ h, fieldMatch f name = true → isJoinField f = false) →
      Header.Contains h { Column := name } = .error (.FieldAmbiguous name) ∧
      Header.ContainsObject h (.FieldReference "" name)
          = .error (.FieldAmbiguous name)) ∧
    ((∀ f ∈ h, fieldMatch f name = true → isJoinField f = true) →
      Header.Contains h { Column := name }
          = .ok (h.findIdx fun f => fieldMatch f name && isJoinField f) ∧
      Header.ContainsObject h (.FieldReference "" name)
          = .ok (h.findIdx fun f => fieldMatch f name && isJoinField f)) := by
  have hContains :
      Header.Contains h { Column := name } = containsLoop name h 0 none := by
    simp [Header.Contains]
  have hObj : Header.ContainsObject h (.FieldReference "" name)
      = Header.Contains h { Column := name } := rfl
  constructor
  · intro hall
    have hcnt : 2 ≤ (h.filter fun f => fieldMatch f name).length +
        (if (none : Option Nat).isSome then 1 else 0) := by
      simpa [countMatch] using hdup
    have hres := containsLoop_no_join_amb name h 0 none hall hcnt
    exact ⟨hContains.trans hres, hObj.trans (hContains.trans hres)⟩
  · intro hall
    have hpos : 0 < (h.filter fun f => fieldMatch f name).length := by
      have := hdup
      simp [countMatch] at this
      omega
    have hex : ∃ f ∈ h, fieldMatch f name = true := by
      rcases List.exists_mem_of_length_pos hpos with ⟨f, hf⟩
      rcases List.mem_filter.mp hf with ⟨hmem, hp⟩
      exact ⟨f, hmem, hp⟩
    have hres := containsLoop_all_join name h 0 hall hex
    simp at hres
    exact ⟨hContains.trans hres, hObj.trans (hContains.trans hres)⟩

/-- Witness for C1 at concrete headers: two plain duplicates of c1 are ambiguous,
two join-produced duplicates of c4 resolve to the first join field. -/
theorem C1_ambiguity_and_join_duplicates_witness :
    Header.Contains ambHeader { Column := "c1" } = .error (.FieldAmbiguous "c1") ∧
    Header.Contains joinHeader { Column := "c4" } = .ok 0 := by
  constructor
  · exact ((C1_ambiguity_and_join_duplicates ambHeader "c1" (by decide)).1
      (by decide)).1
  · have hres := ((C1_ambiguity_and_join_duplicates joinHeader "c4" (by decide)).2
      (by decide)).1
    have hidx : (joinHeader.findIdx fun f => fieldMatch f "c4" && isJoinField f)
        = 0 := by decide
    rw [hidx] at hres
    exact hres

/-- Claim C3: ContainsObject on a bare positive-integer literal n resolves by
scanning all fields whose column text equals n's decimal text, never consulting any
field's Number: zero matches do not exist, two or more are ambiguous, exactly one
returns that field's index, and rewriting every Number leaves the result unchanged
even when some field's Number equals n. -/
theorem C3_integer_literal_resolution (h : Header) (n : Int) (hn : 0 < n) :
    (countTextMatch (fun _ => true) h (toString n) = 0 →
      Header.ContainsObject h (.IntegerLiteral n)
        = .error (.FieldNotExist (toString n))) ∧
    (2 ≤ countTextMatch (fun _ => true) h (toString n) →
      Header.ContainsObject h (.IntegerLiteral n)
        = .error (.FieldAmbiguous (toString n))) ∧
    (countTextMatch (fun _ => true) h (toString n) = 1 →
      Header.ContainsObject h (.IntegerLiteral n)
        = .ok (h.findIdx fun f => (fun _ => true) f && f.Column == toString n)) ∧
    (∀ φ : HeaderField → Int,
      Header.ContainsObject (h.map fun f => { f with Number := φ f })
          (.IntegerLiteral n)
        = Header.ContainsObject h (.IntegerLiteral n)) := by
  have hobj : Header.ContainsObject h (.IntegerLiteral n)
      = textMatchLoop (toString n) (fun _ => true) h 0 none := rfl
  refine ⟨?_, ?_, ?_, ?_⟩
  · intro hcnt
    rw [hobj, textMatchLoop_zero (toString n) (fun _ => true) h 0 none hcnt]
  · intro hcnt
    rw [hobj]
    exact textMatchLoop_amb (toString n) (fun _ => true) h 0 none (by simpa using hcnt)
  · intro hcnt
    rw [hobj]
    simpa using textMatchLoop_one (toString n) (fun _ => true) h 0 hcnt
  · intro φ
    rw [hobj]
    exact textMatchLoop_map_number (toString n) φ h 0 none

/-- Witness for C3 at the TestHeader_ContainsObject data: the literal 1 matches the
two fields with column text 1 and is ambiguous although a field has Number 1, and
the literal 2 matches no column text and does not exist although a field has
Number 2. -/
theorem C3_integer_literal_resolution_witness :
    Header.ContainsObject litHeader (.IntegerLiteral 1)
      = .error (.FieldAmbiguous (toString (1 : Int))) ∧
    Header.ContainsObject litHeader (.IntegerLiteral 2)
      = .error (.FieldNotExist (toString (2 : Int))) := by
  constructor
  · exact (C3_integer_literal_resolution litHeader 1 (by decide)).2.1 (by decide)
  · exact (C3_integer_literal_resolution litHeader 2 (by decide)).1 (by decide)

/-- Claim C4: Update with no replacements succeeds preserving the count and names of
the columns while rebinding every field's view and clearing aliases and numbering; a
replacement list of the wrong length always fails with the field-length error;
duplicate replacement identifiers always fail with the duplicate-name error; a valid
replacement list rewrites every column name and clears aliases and numbering. -/
theorem C4_update_contract (h : Header) (reference : String) :
    (∃ h2, Header.Update h reference none = .ok h2 ∧
      h2.map (fun f => f.Column) = h.map (fun f => f.Column) ∧
      h2.length = h.length ∧
      ∀ f ∈ h2, f.View = reference ∧ f.Aliases = [] ∧ f.Number = 0) ∧
    (∀ fs : List String, fs.length ≠ h.length →
      Header.Update h reference (some fs) = .error .FieldLengthNotMatch) ∧
    (∀ fs : List String, fs.length = h.length → ¬ fs.Nodup →
      ∃ x, 2 ≤ fs.count x ∧
        Header.Update h reference (some fs) = .error (.DuplicateFieldName x)) ∧
    (∀ fs : List String, fs.length = h.length → fs.Nodup →
      ∃ h2, Header.Update h reference (some fs) = .ok h2 ∧
        h2.map (fun f => f.Column) = fs ∧
        ∀ f ∈ h2, f.View = reference ∧ f.Aliases = [] ∧ f.Number = 0) := by
  refine ⟨?_, ?_, ?_, ?_⟩
  · refine ⟨h.map fun f => { f with View := reference, Aliases := [], Number := 0 },
      ?_, ?_, by simp, ?_⟩
    · rfl
    · simp [List.map_map]
    · intro f hf
      rcases List.mem_map.mp hf with ⟨g, _, hg⟩
      rw [← hg]
      exact ⟨rfl, rfl, rfl⟩
  · intro fs hne
    simp [Header.Update, hne]
  · intro fs hlen hnd
    have hsome : firstDuplicate fs ≠ none := by
      intro hnone
      exact hnd ((firstDuplicate_eq_none_iff fs).mp hnone)
    rcases Option.ne_none_iff_exists'.mp hsome with ⟨x, hx⟩
    refine ⟨x, firstDuplicate_count fs x hx, ?_⟩
    simp [Header.Update, hlen, hx]
  · intro fs hlen hnd
    have hnone : firstDuplicate fs = none := (firstDuplicate_eq_none_iff fs).mpr hnd
    refine ⟨(h.zip fs).map fun p =>
      { p.1 with View := reference, Column := p.2, Aliases := [], Number := 0 },
      ?_, ?_, ?_⟩
    · simp [Header.Update, hlen, hnone]
    · rw [List.map_map]
      have hmap : ((fun f => f.Column) ∘ fun p : HeaderField × String =>
          { p.1 with View := reference, Column := p.2, Aliases := [], Number := 0 })
          = Prod.snd := rfl
      rw [hmap]
      exact List.map_snd_zip h fs (le_of_eq hlen)
    · intro f hf
      rcases List.mem_map.mp hf with ⟨p, _, hp⟩
      rw [← hp]
      exact ⟨rfl, rfl, rfl⟩

/-- Witness for C4 at the TestHeader_Update data: a two-name replacement list fails
with the length error, a list repeating c2 fails with the duplicate error, and a
valid list rewrites the columns. -/
theorem C4_update_contract_witness :
    Header.Update updHeader "ref1" (some ["c1", "c2"])
        = .error .FieldLengthNotMatch ∧
    (∃ x, 2 ≤ List.count x ["c1", "c2", "c2"] ∧
      Header.Update updHeader "ref1" (some ["c1", "c2", "c2"])
        = .error (.DuplicateFieldName x)) ∧
    (∃ h2, Header.Update updHeader "ref1" (some ["c1", "c2", "c3"]) = .ok h2 ∧
      h2.map (fun f => f.Column) = ["c1", "c2", "c3"] ∧
      ∀ f ∈ h2, f.View = "ref1" ∧ f.Aliases = [] ∧ f.Number = 0) := by
  refine ⟨?_, ?_, ?_⟩
  · exact (C4_update_contract updHeader "ref1").2.1 ["c1", "c2"] (by decide)
  · exact (C4_update_contract updHeader "ref1").2.2.1 ["c1", "c2", "c2"]
      (by decide) (by decide)
  · exact (C4_update_contract updHeader "ref1").2.2.2 ["c1", "c2", "c3"]
      (by decide) (by decide)

/-- Counterexample to claim C5 as stated: a successful Update(ref1, nil) call on the
TestHeader_Update header leaves the caller's header different from the original, so
Update does not leave the header it is applied to unchanged. -/
theorem C5_counterexample_update_mutates :
    (Header.UpdateCall updHeader "ref1" none).2 = none ∧
    (Header.UpdateCall updHeader "ref1" none).1 ≠ updHeader := by
  constructor
  · rfl
  · decide

/-- Claim C5 as amended: Update mutates the Header in place and returns only an
error value. On a successful Update(ref, nil) the caller's header holds the
rewritten fields (every view is ref, aliases and numbering cleared, columns
preserved); on any failing call the caller's header is unchanged. -/
theorem C5_update_mutates_in_place (h : Header) (reference : String) :
    ((Header.UpdateCall h reference none).2 = none) ∧
    ((Header.UpdateCall h reference none).1.map (fun f => f.Column)
        = h.map (fun f => f.Column)) ∧
    (∀ f ∈ (Header.UpdateCall h reference none).1,
      f.View = reference ∧ f.Aliases = [] ∧ f.Number = 0) ∧
    (∀ (fs : List String) (e : FieldError),
      (Header.UpdateCall h reference (some fs)).2 = some e →
      (Header.UpdateCall h reference (some fs)).1 = h) := by
  refine ⟨rfl, by simp [Header.UpdateCall, Header.Update, List.map_map], ?_, ?_⟩
  · intro f hf
    have hpost : (Header.UpdateCall h reference none).1
        = h.map fun g => { g with View := reference, Aliases := [], Number := 0 } :=
      rfl
    rw [hpost] at hf
    rcases List.mem_map.mp hf with ⟨g, _, hg⟩
    rw [← hg]
    exact ⟨rfl, rfl, rfl⟩
  · intro fs e hsome
    cases hupd : Header.Update h reference (some fs) with
    | ok h2 =>
      have hnone : (Header.UpdateCall h reference (some fs)).2 = none := by
        simp [Header.UpdateCall, hupd]
      rw [hnone] at hsome
      exact Option.noConfusion hsome
    | error e2 =>
      simp [Header.UpdateCall, hupd]

/-- Witness for C5 as amended: a successful call reports no error, and a failing
call (wrong replacement length) leaves the caller's header untouched. -/
theorem C5_update_mutates_in_place_witness :
    (Header.UpdateCall updHeader "ref1" none).2 = none ∧
    (Header.UpdateCall updHeader "ref1" (some ["c1"])).1 = updHeader := by
  constructor
  · exact (C5_update_mutates_in_place updHeader "ref1").1
  · exact (C5_update_mutates_in_place updHeader "ref1").2.2.2 ["c1"]
      .FieldLengthNotMatch (by decide)

/-- Counterexample to claim C2 as stated: on the TestHeader_TableColumnNames header
(one field with IsFromTable false) with a fully populated row, bareValues emits two
column names for a three-field header, so the name-list length differs from the
arity of every flattened row. -/
theorem C2_counterexample_bareValues :
    (bareValues mixedView).1.length = 2 ∧
    mixedView.Header.length = 3 ∧
    (∀ r ∈ (bareValues mixedView).2, r.length = 3) ∧
    (2 : Nat) ≠ 3 := by
  refine ⟨rfl, rfl, by decide, by decide⟩

/-- Claim C2 as amended: bareValues emits one column name per header field with
IsFromTable set, in header order, and one value per cell in row order; the name-list
length equals the arity of every flattened row when every header field originates
from a table and every row has header arity. -/
theorem C2_bareValues_amended (view : View) :
    (bareValues view).1
        = (view.Header.filter fun f => f.IsFromTable).map (fun f => f.Column) ∧
    (bareValues view).2 = view.RecordSet.map (fun record => record.map Cell.Value) ∧
    ((∀ f ∈ view.Header, f.IsFromTable = true) →
      (∀ record ∈ view.RecordSet, record.length = view.Header.length) →
      (bareValues view).1.length = view.Header.length ∧
      ∀ r ∈ (bareValues view).2, r.length = (bareValues view).1.length) := by
  refine ⟨rfl, rfl, ?_⟩
  intro hall harity
  have hfilter : view.Header.filter (fun f => f.IsFromTable) = view.Header :=
    List.filter_eq_self.mpr hall
  have hnames : (bareValues view).1.length = view.Header.length := by
    show (Header.TableColumnNames view.Header).length = view.Header.length
    rw [Header.TableColumnNames, hfilter, List.length_map]
  refine ⟨hnames, ?_⟩
  intro r hr
  rcases List.mem_map.mp hr with ⟨record, hrec, hmap⟩
  rw [← hmap, List.length_map, hnames]
  exact harity record hrec

/-- Witness for C2 as amended, at a view whose fields all originate from tables. -/
theorem C2_bareValues_amended_witness :
    (bareValues allTableView).1.length = allTableView.Header.length ∧
    ∀ r ∈ (bareValues allTableView).2,
      r.length = (bareValues allTableView).1.length := by
  exact (C2_bareValues_amended allTableView).2.2 (by decide) (by decide)

/-- Claim C9: for a TSV format descriptor, EncodeView assigns the tab character to
the caller's fileInfo.Delimiter before delegating to the delimited writer, the
delegation uses the tab delimiter, and the change persists: a later encode reusing
the returned FileInfo still runs with the tab delimiter. -/
theorem C9_tsv_mutates_delimiter (view : View) (fileInfo : FileInfo)
    (hfmt : fileInfo.Format = Format.TSV) :
    (EncodeView view fileInfo).1 = { fileInfo with Delimiter := '\t' } ∧
    (EncodeView view fileInfo).2 = .csvCall '\t' fileInfo.LineBreak
        fileInfo.NoHeader fileInfo.Encoding fileInfo.EncloseAll ∧
    ∀ view2 : View, (EncodeView view2 (EncodeView view fileInfo).1).2
        = .csvCall '\t' fileInfo.LineBreak fileInfo.NoHeader fileInfo.Encoding
            fileInfo.EncloseAll := by
  refine ⟨?_, ?_, ?_⟩ <;> simp [EncodeView, hfmt]

/-- Witness for C9 at a concrete TSV descriptor whose delimiter starts as a comma. -/
theorem C9_tsv_mutates_delimiter_witness :
    (EncodeView emptyView fileInfoTSV).1 = { fileInfoTSV with Delimiter := '\t' } ∧
    (EncodeView emptyView fileInfoTSV).2
        = .csvCall '\t' LineBreak.LF false Encoding.UTF8 false ∧
    (EncodeView emptyView (EncodeView emptyView fileInfoTSV).1).2
        = .csvCall '\t' LineBreak.LF false Encoding.UTF8 false := by
  have h := C9_tsv_mutates_delimiter emptyView fileInfoTSV rfl
  exact ⟨h.1, h.2.1, h.2.2 emptyView⟩

/-- The GFM arm of encodeText never checks emptiness: it always hands the encoder
input through, with alignment markers from the first record. -/
theorem encodeText_gfm_eq (view : View) (lb : LineBreak) (wh : Bool)
    (enc : Encoding) (pal : Effect → String → String) (q : Bool) :
    encodeText Format.GFM view lb wh enc pal q = ([], .ok {
      tableFormat := .GFMTable
      header := if wh then none
        else some ((bareValues view).1.map fun v =>
          { contents := v, alignment := FieldAlignment.Centering })
      records := (bareValues view).2.map (textRecordFields Format.GFM pal false)
      fieldAlignments := some (firstRowAligns false (bareValues view).2)
      lineBreak := lb
      encoding := enc }) := rfl

/-- The plain-text arm of encodeText, when the flattened names and the records are
both non-empty, hands the encoder input through with no warning. -/
theorem encodeText_text_success (view : View) (lb : LineBreak) (wh : Bool)
    (enc : Encoding) (pal : Effect → String → String) (q : Bool)
    (hn : (bareValues view).1.length ≠ 0) (hr : (bareValues view).2.length ≠ 0) :
    encodeText Format.TEXT view lb wh enc pal q = ([], .ok {
      tableFormat := .PlainTable
      header := if wh then none
        else some ((bareValues view).1.map fun v =>
          { contents := v, alignment := FieldAlignment.Centering })
      records := (bareValues view).2.map (textRecordFields Format.TEXT pal true)
      fieldAlignments := none
      lineBreak := lb
      encoding := enc }) := by
  simp [encodeText, Nat.lt_one_iff, hn, hr]

/-- The first-row alignment hints of a flattened view with a leading record. -/
theorem firstRowAligns_bare (b : Bool) (hd : Header) (r0 : List Cell)
    (rest : List (List Cell)) :
    firstRowAligns b (bareValues { Header := hd, RecordSet := r0 :: rest }).2
      = r0.map fun cell => (ConvertFieldContents (Cell.Value cell) b).2.2 := by
  simp [bareValues, firstRowAligns, List.map_map]

/-- Counterexample to claim C7 as stated: a view with a non-empty header (whose only
field has IsFromTable false) and a non-empty record set still fails with
EmptyResultSetError in the plain-text format, warning that the fields are empty. -/
theorem C7_counterexample_nontable_fields :
    nonTableView.Header ≠ [] ∧
    nonTableView.RecordSet ≠ [] ∧
    (encodeText Format.TEXT nonTableView LineBreak.LF false Encoding.UTF8
        plainPalette false).2 = .error .mk ∧
    (encodeText Format.TEXT nonTableView LineBreak.LF false Encoding.UTF8
        plainPalette false).1 = [("Empty Fields", false)] := by
  refine ⟨by decide, by decide, rfl, rfl⟩

/-- Claim C7 as amended: the plain-text table format fails with EmptyResultSetError,
before anything reaches the writer, exactly when the flattened column-name list
(TableColumnNames) or the record set is empty, logging exactly one warning naming
the empty side; the GFM and Org formats never raise it. -/
theorem C7_empty_result_set (view : View) (lb : LineBreak) (wh : Bool)
    (enc : Encoding) (pal : Effect → String → String) (q : Bool) :
    ((∃ e, (encodeText Format.TEXT view lb wh enc pal q).2 = .error e) ↔
      (Header.TableColumnNames view.Header = [] ∨ view.RecordSet = [])) ∧
    (Header.TableColumnNames view.Header = [] →
      (encodeText Format.TEXT view lb wh enc pal q).1 = [("Empty Fields", q)]) ∧
    (Header.TableColumnNames view.Header ≠ [] → view.RecordSet = [] →
      (encodeText Format.TEXT view lb wh enc pal q).1 = [("Empty RecordSet", q)]) ∧
    (Header.TableColumnNames view.Header ≠ [] → view.RecordSet ≠ [] →
      (encodeText Format.TEXT view lb wh enc pal q).1 = [] ∧
      ∃ c, (encodeText Format.TEXT view lb wh enc pal q).2 = .ok c) ∧
    (∃ c, (encodeText Format.GFM view lb wh enc pal q).2 = .ok c) ∧
    (∃ c, (encodeText Format.ORG view lb wh enc pal q).2 = .ok c) := by
  by_cases hn : Header.TableColumnNames view.Header = []
  · have hval : encodeText Format.TEXT view lb wh enc pal q
        = ([("Empty Fields", q)], .error .mk) := by
      simp [encodeText, bareValues, hn]
    refine ⟨⟨fun _ => Or.inl hn, fun _ => ⟨.mk, by rw [hval]⟩⟩,
      fun _ => by rw [hval], fun hn2 _ => absurd hn hn2,
      fun hn2 _ => absurd hn hn2, ⟨_, rfl⟩, ⟨_, rfl⟩⟩
  · have hlen : (Header.TableColumnNames view.Header).length ≠ 0 := by
      simpa [List.length_eq_zero] using hn
    by_cases hr : view.RecordSet = []
    · have hval : encodeText Format.TEXT view lb wh enc pal q
          = ([("Empty RecordSet", q)], .error .mk) := by
        simp [encodeText, bareValues, hr, Nat.lt_one_iff, hlen]
      refine ⟨⟨fun _ => Or.inr hr, fun _ => ⟨.mk, by rw [hval]⟩⟩,
        fun hn2 => absurd hn2 hn, fun _ _ => by rw [hval],
        fun _ hr2 => absurd hr hr2, ⟨_, rfl⟩, ⟨_, rfl⟩⟩
    · have hrlen : (bareValues view).2.length ≠ 0 := by
        simpa [bareValues, List.length_eq_zero] using hr
      have hval := encodeText_text_success view lb wh enc pal q
        (by simpa [bareValues] using hlen) hrlen
      refine ⟨⟨?_, ?_⟩, fun hn2 => absurd hn2 hn, fun _ hr2 => absurd hr2 hr,
        fun _ _ => ⟨by rw [hval], ⟨_, by rw [hval]⟩⟩, ⟨_, rfl⟩, ⟨_, rfl⟩⟩
      · rintro ⟨e, he⟩
        rw [hval] at he
        exact Except.noConfusion he
      · rintro (h | h)
        · exact absurd h hn
        · exact absurd h hr

/-- Witness for C7 as amended: a view with a table column and no records errors with
one Empty RecordSet warning in the plain-text format, and the same view encodes
without error as GFM and Org. -/
theorem C7_empty_result_set_witness :
    (∃ e, (encodeText Format.TEXT emptyRecView LineBreak.LF false Encoding.UTF8
        plainPalette false).2 = .error e) ∧
    (encodeText Format.TEXT emptyRecView LineBreak.LF false Encoding.UTF8
        plainPalette false).1 = [("Empty RecordSet", false)] ∧
    (∃ c, (encodeText Format.GFM emptyRecView LineBreak.LF false Encoding.UTF8
        plainPalette false).2 = .ok c) ∧
    (∃ c, (encodeText Format.ORG emptyRecView LineBreak.LF false Encoding.UTF8
        plainPalette false).2 = .ok c) := by
  have h := C7_empty_result_set emptyRecView LineBreak.LF false Encoding.UTF8
    plainPalette false
  exact ⟨h.1.mpr (Or.inr rfl), h.2.2.1 (by decide) rfl, h.2.2.2.2.1, h.2.2.2.2.2⟩

/-- Claim C8: in the GFM format with at least one data row, the alignment-marker row
is exactly the Converter's alignment hints for the cells of the first data row, one
marker per column in order, and rows after the first never influence it. -/
theorem C8_gfm_alignment_markers (view : View) (lb : LineBreak) (wh : Bool)
    (enc : Encoding) (pal : Effect → String → String) (q : Bool)
    (r0 : List Cell) (rest : List (List Cell))
    (hrec : view.RecordSet = r0 :: rest) :
    ∃ c, (encodeText Format.GFM view lb wh enc pal q).2 = .ok c ∧
      c.fieldAlignments = some (r0.map fun cell =>
        (ConvertFieldContents (Cell.Value cell) false).2.2) ∧
      ∀ rest2 : List (List Cell), ∃ c2,
        (encodeText Format.GFM { Header := view.Header, RecordSet := r0 :: rest2 }
            lb wh enc pal q).2 = .ok c2 ∧
        c2.fieldAlignments = c.fieldAlignments := by
  obtain ⟨hd, rs⟩ := view
  simp only [View.RecordSet] at hrec
  subst hrec
  refine ⟨_, rfl, ?_, ?_⟩
  · show some (firstRowAligns false
        (bareValues { Header := hd, RecordSet := r0 :: rest }).2) = _
    rw [firstRowAligns_bare]
  · intro rest2
    refine ⟨_, rfl, ?_⟩
    show some (firstRowAligns false
          (bareValues { Header := hd, RecordSet := r0 :: rest2 }).2)
        = some (firstRowAligns false
          (bareValues { Header := hd, RecordSet := r0 :: rest }).2)
    rw [firstRowAligns_bare, firstRowAligns_bare]

/-- Witness for C8 at a two-row view: the markers come from the integer and string
cells of the first row (right-aligned then unaligned) although the second row has
the opposite shape. -/
theorem C8_gfm_alignment_markers_witness :
    ∃ c, (encodeText Format.GFM gfmView LineBreak.LF false Encoding.UTF8
        plainPalette false).2 = .ok c ∧
      c.fieldAlignments
        = some [FieldAlignment.RightAligned, FieldAlignment.NotAligned] := by
  obtain ⟨c, h1, h2, _⟩ := C8_gfm_alignment_markers gfmView LineBreak.LF false
    Encoding.UTF8 plainPalette false
    [⟨Primary.Integer 1⟩, ⟨Primary.String "x"⟩]
    [[⟨Primary.String "y"⟩, ⟨Primary.Integer 2⟩]] rfl
  refine ⟨c, h1, ?_⟩
  rw [h2]
  rfl

end Csvq
